import Mathlib

/-!
Verification of the security-policy-migrate converter and orchestrator.

The orchestrator (`convert`, `setRootnamespace`, `newKubeClient` in `k8s.go`)
is translated directly from the source.  The policy converter itself
(`newConverter` / `Convert` / `convertToPolicy`) is not part of the available
source slice — only its caller in `k8s.go` and the reference output fixture
are — so the converter is modelled from the specification (section 4.3),
as marked on each definition below.
-/

/-! ## Data model (spec section 3) -/

/-- Modelled from the spec: the legacy peer-method family.  The spec admits
only the `MutualTLS` entry kind (src lacks the converter file defining it). -/
inductive PeerMethod where
  | mutualTLS
deriving DecidableEq, Repr

/-- Modelled from the spec: JWT origin-method spec of the legacy policy
(`issuer`, `jwksUri`, `audiences`, `jwtHeaders`, `triggerRules`); the
converter source file is absent from src.  Trigger rules are opaque here:
only their presence matters to conversion. -/
structure JwtSpec where
  issuer : String
  jwksUri : String
  audiences : List String
  jwtHeaders : List String
  triggerRules : List String
deriving DecidableEq, Repr

/-- Modelled from the spec: principal-binding enum of the legacy policy. -/
inductive PrincipalBinding where
  | usePeer
  | useOrigin
  | unspecified
deriving DecidableEq, Repr

/-- Modelled from the spec: one target entry (`serviceName`, optional
`ports`; an empty list means no ports were specified). -/
structure Target where
  serviceName : String
  ports : List Nat
deriving DecidableEq, Repr

/-- Modelled from the spec: the legacy policy model (the converter source
file that decodes it is absent from src).  An empty `namespace` means the
policy is mesh-scoped. -/
structure LegacyPolicy where
  name : String
  «namespace» : String
  peerIsOptional : Bool
  peerMethods : List PeerMethod
  originIsOptional : Bool
  originMethods : List JwtSpec
  principalBinding : PrincipalBinding
  targets : List Target
deriving DecidableEq, Repr

/-- Modelled from the spec: mTLS enforcement mode of a generated
PeerAuthentication. -/
inductive MtlsMode where
  | strict
  | permissive
  | disable
deriving DecidableEq, Repr

/-- Modelled from the spec: one generated JWT rule. -/
structure JwtRule where
  issuer : String
  jwksUri : String
  audiences : List String
  jwtHeaders : List String
deriving DecidableEq, Repr

/-- Modelled from the spec: action of a generated AuthorizationPolicy
(the destination model as used here only ever carries `DENY`). -/
inductive AuthzAction where
  | deny
deriving DecidableEq, Repr

/-- Modelled from the spec: the kind-specific payload of a generated
resource.  An AuthorizationPolicy rule is represented by its single
`requiresRequestPrincipal` flag. -/
inductive ResourceSpec where
  | peerAuthentication (mode : MtlsMode)
  | requestAuthentication (jwtRules : List JwtRule)
  | authorizationPolicy (action : AuthzAction) (rules : List Bool)
deriving DecidableEq, Repr

/-- A workload pod-label selector: label key/value pairs. -/
abbrev Selector := List (String × String)

/-- Modelled from the spec: a generated resource with its common fields. -/
structure GeneratedResource where
  name : String
  «namespace» : String
  selector : Option Selector
  provenance : String
  spec : ResourceSpec
deriving DecidableEq, Repr

/-- Modelled from the spec: per-policy conversion summary. -/
structure ConversionSummary where
  errors : List String
  warnings : List String
deriving DecidableEq, Repr

/-! ## Selector resolver (spec section 4.2) -/

/-- The selector index maps `(namespace, serviceName)` to the service's pod
selector; `none` records a service with no pod selector (headless or
external). -/
abbrev SelectorIndex := List ((String × String) × Option Selector)

/-- Outcome of resolving a target service to a selector. -/
inductive ResolveResult where
  | ok (sel : Selector)
  | targetNotFound
  | ambiguousSelector
deriving DecidableEq, Repr

/-- Modelled from the spec: exact-match selector resolution against the
pre-built index; a located service with no pod selector fails with
`AmbiguousSelector`, an absent service with `TargetNotFound`. -/
def resolve (idx : SelectorIndex) (ns svc : String) : ResolveResult :=
  match idx with
  | [] => ResolveResult.targetNotFound
  | (key, sel) :: rest =>
    if key = (ns, svc) then
      match sel with
      | some s => ResolveResult.ok s
      | none => ResolveResult.ambiguousSelector
    else resolve rest ns svc

/-! ## Policy converter (spec section 4.3; source file absent from src) -/

/-- Modelled from the spec: the provenance annotation text recording the
originating policy and target service (wording matching the reference
fixture). -/
def provAnn (p : LegacyPolicy) (svc : String) : String :=
  "converted from alpha authentication policy " ++ p.namespace ++ "/" ++ p.name
    ++ ", service " ++ svc

/-- Modelled from the spec: one JwtRule per origin method, copying
issuer, jwksUri, audiences and jwtHeaders. -/
def jwtRuleOf (s : JwtSpec) : JwtRule :=
  { issuer := s.issuer, jwksUri := s.jwksUri, audiences := s.audiences,
    jwtHeaders := s.jwtHeaders }

/-- Modelled from the spec, step 7: assemble one generated resource from
its common fields and kind-specific payload. -/
def mkResource (name ns : String) (sel : Option Selector) (prov : String)
    (s : ResourceSpec) : GeneratedResource :=
  { name := name, «namespace» := ns, selector := sel, provenance := prov, spec := s }

/-- Modelled from the spec, step 4: no peer method means no
PeerAuthentication; a present MutualTLS method gives Permissive when
`peerIsOptional` and Strict otherwise. -/
def peerResources (name ns : String) (sel : Option Selector) (prov : String)
    (p : LegacyPolicy) : List GeneratedResource :=
  match p.peerMethods with
  | [] => []
  | _ :: _ =>
    [mkResource name ns sel prov (ResourceSpec.peerAuthentication
      (if p.peerIsOptional then MtlsMode.permissive else MtlsMode.strict))]

/-- Modelled from the spec, step 5: one JwtRule per origin method; empty
origin methods mean no RequestAuthentication. -/
def reqResources (name ns : String) (sel : Option Selector) (prov : String)
    (p : LegacyPolicy) : List GeneratedResource :=
  match p.originMethods with
  | [] => []
  | _ :: _ =>
    [mkResource name ns sel prov
      (ResourceSpec.requestAuthentication (p.originMethods.map jwtRuleOf))]

/-- Modelled from the spec, step 6: `UseOrigin` with at least one JwtRule
gives one Deny AuthorizationPolicy with a single principal-required rule;
`UsePeer` and `Unspecified` give none. -/
def authzResources (name ns : String) (sel : Option Selector) (prov : String)
    (p : LegacyPolicy) : List GeneratedResource :=
  match p.principalBinding, p.originMethods with
  | PrincipalBinding.useOrigin, _ :: _ =>
    [mkResource name ns sel prov
      (ResourceSpec.authorizationPolicy AuthzAction.deny [true])]
  | _, _ => []

/-- Modelled from the spec, steps 4 to 7: the resources of one target that
passed resolution and the unsupported-shape checks, in fixture order
(PeerAuthentication, RequestAuthentication, AuthorizationPolicy). -/
def buildResources (name ns : String) (sel : Option Selector) (prov : String)
    (p : LegacyPolicy) : List GeneratedResource :=
  peerResources name ns sel prov p ++ reqResources name ns sel prov p
    ++ authzResources name ns sel prov p

/-- Modelled from the spec: the effective namespace of a target — the
policy's namespace, or the configured root namespace for a mesh-scoped
(empty-namespace) policy. -/
def effectiveNs (root : String) (p : LegacyPolicy) : String :=
  if p.namespace = "" then root else p.namespace

/-- Modelled from the spec: the per-policy unsupported-shape errors for one
target (more than one peer method; explicit ports), and the trigger-rule
approximation warning. -/
def targetChecks (p : LegacyPolicy) (ports : List Nat) : List String × List String :=
  let errs :=
    (if 1 < p.peerMethods.length
      then ["unsupported: more than one peer method"] else [])
    ++ (if ports ≠ [] then ["unsupported: target with explicit ports"] else [])
  let warns :=
    if p.originMethods.any (fun m => !m.triggerRules.isEmpty)
      then ["trigger rules approximated scope-wide"] else []
  (errs, warns)

/-- Modelled from the spec, steps 2, 3 and 7: convert one explicit target —
resolve its selector (resolution failure is an error for this target only),
reject unsupported shapes, otherwise build resources named
`policyName-serviceName` in the effective namespace. -/
def convertExplicitTarget (root : String) (idx : SelectorIndex)
    (p : LegacyPolicy) (t : Target) :
    List GeneratedResource × List String × List String :=
  let ns := effectiveNs root p
  match resolve idx ns t.serviceName with
  | ResolveResult.targetNotFound =>
    ([], ["target not found: " ++ ns ++ "/" ++ t.serviceName], [])
  | ResolveResult.ambiguousSelector =>
    ([], ["ambiguous selector: " ++ ns ++ "/" ++ t.serviceName], [])
  | ResolveResult.ok sel =>
    let c := targetChecks p t.ports
    if c.1 ≠ [] then ([], c.1, c.2)
    else (buildResources (p.name ++ "-" ++ t.serviceName) ns (some sel)
      (provAnn p t.serviceName) p, [], c.2)

/-- Modelled from the spec, steps 1, 3 and 7: the implicit whole-scope
target synthesized for a policy with empty `targets` — no selector, name is
the bare policy name. -/
def convertImplicitTarget (root : String) (p : LegacyPolicy) :
    List GeneratedResource × List String × List String :=
  let ns := effectiveNs root p
  let c := targetChecks p []
  if c.1 ≠ [] then ([], c.1, c.2)
  else (buildResources p.name ns none (provAnn p ("")) p, [], c.2)

/-- Modelled from the spec: the policy converter —
`convert(policy, resolver) -> (resources, summary)`; one result per target
(one implicit target when `targets` is empty), all errors and warnings
collected across targets. -/
def Convert (root : String) (idx : SelectorIndex) (p : LegacyPolicy) :
    List GeneratedResource × ConversionSummary :=
  let results :=
    match p.targets with
    | [] => [convertImplicitTarget root p]
    | ts => ts.map (convertExplicitTarget root idx p)
  ((results.map Prod.fst).flatten,
   { errors := (results.map (fun r => r.2.1)).flatten,
     warnings := (results.map (fun r => r.2.2)).flatten })

/-! ## Conversion orchestrator (translated from `convert` in src/k8s.go) -/

/-- Result of `convertToPolicy` on one listed legacy-policy object: either
the decode fails with an error message, or it yields a legacy policy.
The decoder itself is external to src (only its call site is present). -/
inductive DecodeResult where
  | fail (msg : String)
  | ok (p : LegacyPolicy)
deriving DecidableEq, Repr

/-- The inputs of one orchestrator run, as consumed by `convert` in
src/k8s.go: whether the istio-system namespace exists, whether listing
services succeeded, the root namespace and the service selector index, the
decode results of the listed legacy policies, the enumerated legacy RBAC
resources, and the `--ignore-error` flag. -/
structure RunInput where
  hasIstioNs : Bool
  servicesOk : Bool
  root : String
  idx : SelectorIndex
  items : List DecodeResult
  rbacResources : List String
  ignoreError : Bool
deriving DecidableEq, Repr

/-- Translated from the policy loop of `convert` in src/k8s.go lines
135 to 151: a decode failure aborts the whole run with an error; a policy
whose summary has errors sets the run error flag and contributes no output;
otherwise its resources are appended to the accumulated output. -/
def processItems (root : String) (idx : SelectorIndex) :
    List DecodeResult → List GeneratedResource → Bool →
    Except String (List GeneratedResource × Bool)
  | [], acc, hasErr => Except.ok (acc, hasErr)
  | DecodeResult.fail m :: _, _, _ =>
    Except.error ("failed to convert resource to authentication policy: " ++ m)
  | DecodeResult.ok p :: rest, acc, hasErr =>
    let r := Convert root idx p
    if r.2.errors.length ≠ 0 then processItems root idx rest acc true
    else processItems root idx rest (acc ++ r.1) hasErr

/-- Translated from `convert` in src/k8s.go: require the istio-system
namespace, list services, process each decoded policy, enumerate the RBAC
resources (which are never converted, only counted towards the error flag),
and at the end either fail (errors present without `--ignore-error`) or
emit the accumulated output. -/
def convertRun (inp : RunInput) : Except String (List GeneratedResource) :=
  if !inp.hasIstioNs then Except.error ("could not find istio-system namespace")
  else if !inp.servicesOk then Except.error ("failed to list services")
  else
    match processItems inp.root inp.idx inp.items [] false with
    | Except.error m => Except.error m
    | Except.ok (out, hasErr0) =>
      let hasErr := hasErr0 || !inp.rbacResources.isEmpty
      if hasErr && !inp.ignoreError then
        Except.error ("conversion failed, found errors during conversion, please fix errors and re-run the tool again")
      else Except.ok out

/-! ## Root namespace and client construction (src/k8s.go lines 47 to 114) -/

/-- The default istio namespace constant from src/k8s.go. -/
def istioNamespace : String := "istio-system"

/-- The mesh config map key constant from src/k8s.go. -/
def meshConfigMapKey : String := "mesh"

/-- A JSON value as far as `setRootnamespace` inspects it: a string, or
anything else (number, object, bool, ...). -/
inductive JsonValue where
  | str (s : String)
  | other
deriving DecidableEq, Repr

/-- Result of getting the mesh config map from the cluster: not found,
another API error, or found with its data entries. -/
inductive MeshConfigGet where
  | notFound
  | otherError (msg : String)
  | found (data : List (String × String))
deriving DecidableEq, Repr

/-- Outcome of the YAML-to-JSON-to-object pipeline on the mesh config
text: a YAML conversion failure, a JSON unmarshal failure, or the parsed
object's `rootNamespace` entry (`none` when the key is absent or its value
is null). -/
inductive MeshParse where
  | yamlErr (msg : String)
  | jsonErr (msg : String)
  | parsed (rootVal : Option JsonValue)
deriving DecidableEq, Repr

/-- Go-map lookup over the config map data entries. -/
def lookupData : List (String × String) → String → Option String
  | [], _ => none
  | (k, v) :: rest, key => if k = key then some v else lookupData rest key

/-- Translated from `setRootnamespace` in src/k8s.go: a missing config map
defaults the root namespace to istio-system; other get errors fail; a
found map must carry the mesh key; the parsed `rootNamespace` value is used
when it is a non-empty string, and otherwise the default applies.  The
YAML/JSON machinery is external and passed in as `parse`. -/
def setRootnamespace (parse : String → MeshParse) (cm : MeshConfigGet) :
    Except String String :=
  match cm with
  | MeshConfigGet.notFound => Except.ok istioNamespace
  | MeshConfigGet.otherError m => Except.error ("failed to get meshconfig: " ++ m)
  | MeshConfigGet.found data =>
    match lookupData data meshConfigMapKey with
    | none => Except.error ("missing config map key " ++ meshConfigMapKey)
    | some configYaml =>
      match parse configYaml with
      | MeshParse.yamlErr m => Except.error ("failed converting YAML to JSON: " ++ m)
      | MeshParse.jsonErr m => Except.error ("failed unmarshaling JSON object: " ++ m)
      | MeshParse.parsed rootVal =>
        let ns :=
          match rootVal with
          | some (JsonValue.str v) => if v ≠ "" then v else ("")
          | _ => ""
        Except.ok (if ns = "" then istioNamespace else ns)

/-- The client state `newKubeClient` constructs, restricted to the field
the claims are about. -/
structure KubeClient where
  rootNamespace : String
deriving DecidableEq, Repr

/-- Translated from `newKubeClient` in src/k8s.go: a non-empty kubeconfig
path that cannot be read (stat error or empty file, encoded as
`statOk = false`) fails; a client config error fails; otherwise the client
is built and `setRootnamespace` fills in its root namespace. -/
def newKubeClient (kubeconfig : String) (statOk : Bool)
    (clientConfigErr : Option String) (parse : String → MeshParse)
    (cm : MeshConfigGet) : Except String KubeClient :=
  if kubeconfig ≠ "" && !statOk then
    Except.error ("kubeconfig specified but could not be read: " ++ kubeconfig)
  else
    match clientConfigErr with
    | some m => Except.error m
    | none =>
      match setRootnamespace parse cm with
      | Except.error m => Except.error m
      | Except.ok ns => Except.ok { rootNamespace := ns }

/-! ## The reference fixture (src/unnamed/part_000) -/

/-- The jwks URI of the end-to-end fixture. -/
def jwtBasicJwksUri : String :=
  "https://raw.githubusercontent.com/istio/istio/release-1.4/security/tools/jwt/samples/jwks.json"

/-- The single origin method of the jwt-basic fixture policy. -/
def jwtBasicOrigin : JwtSpec :=
  { issuer := "testing@secure.istio.io", jwksUri := jwtBasicJwksUri,
    audiences := [], jwtHeaders := [], triggerRules := [] }

/-- The jwt-basic legacy policy of the end-to-end fixture. -/
def jwtBasicPolicy : LegacyPolicy :=
  { name := "jwt-basic", «namespace» := "foo", peerIsOptional := true,
    peerMethods := [PeerMethod.mutualTLS], originIsOptional := false,
    originMethods := [jwtBasicOrigin],
    principalBinding := PrincipalBinding.useOrigin,
    targets := [{ serviceName := "httpbin", ports := [] }] }

/-- The selector index of the fixture: service httpbin in namespace foo
with pod selector app: httpbin. -/
def jwtBasicIndex : SelectorIndex :=
  [(("foo", "httpbin"), some [("app", "httpbin")])]

/-- The jwtRule of the fixture's RequestAuthentication, written out from
the fixture file. -/
def jwtBasicRule : JwtRule :=
  { issuer := "testing@secure.istio.io", jwksUri := jwtBasicJwksUri,
    audiences := [], jwtHeaders := [] }

/-- The pod selector of the fixture resources. -/
def jwtBasicSelector : Selector := [("app", "httpbin")]

/-- The provenance annotation text of the fixture resources. -/
def jwtBasicProv : String :=
  "converted from alpha authentication policy foo/jwt-basic, service httpbin"

/-- The three resources of the reference fixture (src/unnamed/part_000), in
file order: PeerAuthentication (mode PERMISSIVE), RequestAuthentication
(one jwtRule with the fixture issuer and jwksUri), AuthorizationPolicy
(action DENY, one rule denying requests without a request principal). -/
def jwtBasicExpected : List GeneratedResource :=
  [mkResource ("jwt-basic-httpbin") ("foo") (some jwtBasicSelector) jwtBasicProv
    (ResourceSpec.peerAuthentication MtlsMode.permissive),
   mkResource ("jwt-basic-httpbin") ("foo") (some jwtBasicSelector) jwtBasicProv
    (ResourceSpec.requestAuthentication [jwtBasicRule]),
   mkResource ("jwt-basic-httpbin") ("foo") (some jwtBasicSelector) jwtBasicProv
    (ResourceSpec.authorizationPolicy AuthzAction.deny [true])]

/-! ## Helper predicates and run-level descriptions -/

/-- Whether a resource payload is a PeerAuthentication. -/
def isPeerAuthSpec : ResourceSpec → Bool
  | ResourceSpec.peerAuthentication _ => true
  | _ => false

/-- Whether a resource payload is an AuthorizationPolicy. -/
def isAuthzSpec : ResourceSpec → Bool
  | ResourceSpec.authorizationPolicy _ _ => true
  | _ => false

/-- Number of AuthorizationPolicy resources in a resource list. -/
def countAuthz (rs : List GeneratedResource) : Nat :=
  (rs.filter (fun r => isAuthzSpec r.spec)).length

/-- The number of targets the converter processes for a policy: one
implicit whole-scope target when `targets` is empty, else one per entry. -/
def numTargets (p : LegacyPolicy) : Nat :=
  match p.targets with
  | [] => 1
  | ts => ts.length

/-- Whether a decode result is a failure. -/
def isFail : DecodeResult → Bool
  | DecodeResult.fail _ => true
  | DecodeResult.ok _ => false

/-- The run output the orchestrator accumulates: the concatenated
resources of exactly those decoded policies whose summary has no errors. -/
def goodOutput (root : String) (idx : SelectorIndex) :
    List DecodeResult → List GeneratedResource
  | [] => []
  | DecodeResult.fail _ :: rest => goodOutput root idx rest
  | DecodeResult.ok p :: rest =>
    if (Convert root idx p).2.errors.length ≠ 0 then goodOutput root idx rest
    else (Convert root idx p).1 ++ goodOutput root idx rest

/-- Whether some decoded policy of the run has a summary with errors. -/
def anyFailing (root : String) (idx : SelectorIndex) :
    List DecodeResult → Bool
  | [] => false
  | DecodeResult.fail _ :: rest => anyFailing root idx rest
  | DecodeResult.ok p :: rest =>
    decide ((Convert root idx p).2.errors.length ≠ 0) || anyFailing root idx rest

/-! ## Lemmas about the per-target resource builders -/

theorem mem_peerResources {name ns : String} {sel : Option Selector}
    {prov : String} {p : LegacyPolicy} {r : GeneratedResource}
    (hr : r ∈ peerResources name ns sel prov p) :
    r = mkResource name ns sel prov (ResourceSpec.peerAuthentication
      (if p.peerIsOptional then MtlsMode.permissive else MtlsMode.strict))
    ∧ p.peerMethods ≠ [] := by
  unfold peerResources at hr
  cases h : p.peerMethods with
  | nil => rw [h] at hr; simp at hr
  | cons a l => rw [h] at hr; simp at hr; exact ⟨hr, by simp [h]⟩

theorem mem_reqResources {name ns : String} {sel : Option Selector}
    {prov : String} {p : LegacyPolicy} {r : GeneratedResource}
    (hr : r ∈ reqResources name ns sel prov p) :
    r = mkResource name ns sel prov
      (ResourceSpec.requestAuthentication (p.originMethods.map jwtRuleOf))
    ∧ p.originMethods ≠ [] := by
  unfold reqResources at hr
  cases h : p.originMethods with
  | nil => rw [h] at hr; simp at hr
  | cons a l => rw [h] at hr; simp at hr; exact ⟨hr, by simp [h]⟩

theorem mem_authzResources {name ns : String} {sel : Option Selector}
    {prov : String} {p : LegacyPolicy} {r : GeneratedResource}
    (hr : r ∈ authzResources name ns sel prov p) :
    r = mkResource name ns sel prov
      (ResourceSpec.authorizationPolicy AuthzAction.deny [true])
    ∧ p.principalBinding = PrincipalBinding.useOrigin
    ∧ p.originMethods ≠ [] := by
  unfold authzResources at hr
  cases hb : p.principalBinding <;> rw [hb] at hr
  case usePeer => simp at hr
  case unspecified => simp at hr
  case useOrigin =>
    cases h : p.originMethods with
    | nil => rw [h] at hr; simp at hr
    | cons a l => rw [h] at hr; simp at hr; exact ⟨hr, rfl, by simp [h]⟩

theorem mem_buildResources {name ns : String} {sel : Option Selector}
    {prov : String} {p : LegacyPolicy} {r : GeneratedResource}
    (hr : r ∈ buildResources name ns sel prov p) :
    r ∈ peerResources name ns sel prov p ∨ r ∈ reqResources name ns sel prov p
      ∨ r ∈ authzResources name ns sel prov p := by
  unfold buildResources at hr
  simp only [List.mem_append] at hr
  tauto

/-! ## Lemmas about per-target conversion -/

theorem convertImplicitTarget_mem {root : String} {p : LegacyPolicy}
    {r : GeneratedResource} (hr : r ∈ (convertImplicitTarget root p).1) :
    r ∈ buildResources p.name (effectiveNs root p) none (provAnn p ("")) p := by
  simp only [convertImplicitTarget] at hr
  by_cases hc : (targetChecks p []).1 ≠ []
  · simp [hc] at hr
  · simp [hc] at hr; exact hr

theorem convertImplicitTarget_errors_nil {root : String} {p : LegacyPolicy}
    (h : (convertImplicitTarget root p).2.1 = []) :
    (convertImplicitTarget root p).1 =
      buildResources p.name (effectiveNs root p) none (provAnn p ("")) p := by
  simp only [convertImplicitTarget] at h ⊢
  by_cases hc : (targetChecks p []).1 ≠ []
  · simp [hc] at h
  · simp [hc]

theorem convertExplicitTarget_mem {root : String} {idx : SelectorIndex}
    {p : LegacyPolicy} {t : Target} {r : GeneratedResource}
    (hr : r ∈ (convertExplicitTarget root idx p t).1) :
    ∃ sel, resolve idx (effectiveNs root p) t.serviceName = ResolveResult.ok sel ∧
      r ∈ buildResources (p.name ++ "-" ++ t.serviceName) (effectiveNs root p)
        (some sel) (provAnn p t.serviceName) p := by
  simp only [convertExplicitTarget] at hr
  cases hres : resolve idx (effectiveNs root p) t.serviceName <;> simp only [hres] at hr
  case targetNotFound => simp at hr
  case ambiguousSelector => simp at hr
  case ok sel =>
    by_cases hc : (targetChecks p t.ports).1 ≠ []
    · simp [hc] at hr
    · simp [hc] at hr; exact ⟨sel, rfl, hr⟩

theorem convertExplicitTarget_errors_nil {root : String} {idx : SelectorIndex}
    {p : LegacyPolicy} {t : Target}
    (h : (convertExplicitTarget root idx p t).2.1 = []) :
    ∃ sel, resolve idx (effectiveNs root p) t.serviceName = ResolveResult.ok sel ∧
      (convertExplicitTarget root idx p t).1 =
        buildResources (p.name ++ "-" ++ t.serviceName) (effectiveNs root p)
          (some sel) (provAnn p t.serviceName) p := by
  simp only [convertExplicitTarget] at h ⊢
  cases hres : resolve idx (effectiveNs root p) t.serviceName <;> simp only [hres] at h ⊢
  case targetNotFound => simp at h
  case ambiguousSelector => simp at h
  case ok sel =>
    by_cases hc : (targetChecks p t.ports).1 ≠ []
    · simp [hc] at h
    · simp [hc]

/-! ## Lemmas about whole-policy conversion -/

theorem mem_Convert {root : String} {idx : SelectorIndex} {p : LegacyPolicy}
    {r : GeneratedResource} (hr : r ∈ (Convert root idx p).1) :
    ∃ n ns sel prov, r ∈ buildResources n ns sel prov p := by
  unfold Convert at hr
  cases hts : p.targets with
  | nil =>
    rw [hts] at hr
    simp at hr
    exact ⟨_, _, _, _, convertImplicitTarget_mem hr⟩
  | cons t ts =>
    rw [hts] at hr
    simp [List.mem_flatten] at hr
    rcases hr with hr | ⟨t', _ht', hrt⟩
    · obtain ⟨sel, _, hb⟩ := convertExplicitTarget_mem hr
      exact ⟨_, _, _, _, hb⟩
    · obtain ⟨sel, _, hb⟩ := convertExplicitTarget_mem hrt
      exact ⟨_, _, _, _, hb⟩

theorem Convert_errors_nil_sub {root : String} {idx : SelectorIndex}
    {p : LegacyPolicy} (h : (Convert root idx p).2.errors = []) :
    ∃ n ns sel prov, ∀ r ∈ buildResources n ns sel prov p,
      r ∈ (Convert root idx p).1 := by
  cases hts : p.targets with
  | nil =>
    have h1 : (convertImplicitTarget root p).2.1 = [] := by
      unfold Convert at h; rw [hts] at h; simpa using h
    refine ⟨p.name, effectiveNs root p, none, provAnn p (""), ?_⟩
    intro r hr
    unfold Convert
    rw [hts]
    simpa [convertImplicitTarget_errors_nil h1] using hr
  | cons t ts =>
    have h1 : (convertExplicitTarget root idx p t).2.1 = [] := by
      unfold Convert at h; rw [hts] at h
      simp at h
      exact h.1
    obtain ⟨sel, hres, heq⟩ := convertExplicitTarget_errors_nil h1
    refine ⟨p.name ++ "-" ++ t.serviceName, effectiveNs root p, some sel,
      provAnn p t.serviceName, ?_⟩
    intro r hr
    unfold Convert
    rw [hts]
    simp [List.mem_flatten]
    exact Or.inl (heq ▸ hr)

/-! ## Counting AuthorizationPolicy resources -/

theorem countAuthz_append (l1 l2 : List GeneratedResource) :
    countAuthz (l1 ++ l2) = countAuthz l1 + countAuthz l2 := by
  simp [countAuthz, List.filter_append]

theorem countAuthz_build (n ns : String) (sel : Option Selector) (prov : String)
    (p : LegacyPolicy) :
    countAuthz (buildResources n ns sel prov p) =
      if p.principalBinding = PrincipalBinding.useOrigin ∧ p.originMethods ≠ []
      then 1 else 0 := by
  unfold buildResources
  rw [countAuthz_append, countAuthz_append]
  have h1 : countAuthz (peerResources n ns sel prov p) = 0 := by
    unfold countAuthz peerResources
    cases p.peerMethods <;> simp [isAuthzSpec, mkResource]
  have h2 : countAuthz (reqResources n ns sel prov p) = 0 := by
    unfold countAuthz reqResources
    cases p.originMethods <;> simp [isAuthzSpec, mkResource]
  have h3 : countAuthz (authzResources n ns sel prov p) =
      if p.principalBinding = PrincipalBinding.useOrigin ∧ p.originMethods ≠ []
      then 1 else 0 := by
    unfold countAuthz authzResources
    cases p.principalBinding <;> cases p.originMethods <;>
      simp [isAuthzSpec, mkResource]
  rw [h1, h2, h3]
  omega

theorem Convert_errors_nil_targets {root : String} {idx : SelectorIndex}
    {p : LegacyPolicy} (h : (Convert root idx p).2.errors = []) :
    ∀ t ∈ p.targets, (convertExplicitTarget root idx p t).2.1 = [] := by
  intro t ht
  unfold Convert at h
  cases hts : p.targets with
  | nil => rw [hts] at ht; simp at ht
  | cons t0 ts =>
    rw [hts] at h ht
    simp at h
    rcases List.mem_cons.mp ht with heq | hmem
    · subst heq; exact h.1
    · exact h.2 t hmem

theorem countAuthz_explicit_list (root : String) (idx : SelectorIndex)
    (p : LegacyPolicy) (ts : List Target)
    (h : ∀ t ∈ ts, (convertExplicitTarget root idx p t).2.1 = [])
    (hb : p.principalBinding = PrincipalBinding.useOrigin)
    (ho : p.originMethods ≠ []) :
    countAuthz (((ts.map (convertExplicitTarget root idx p)).map Prod.fst).flatten)
      = ts.length := by
  induction ts with
  | nil => simp [countAuthz]
  | cons t ts ih =>
    have ht := h t (List.mem_cons_self t ts)
    obtain ⟨sel, _, heq⟩ := convertExplicitTarget_errors_nil ht
    simp only [List.map_cons, List.flatten_cons]
    rw [countAuthz_append, heq, countAuthz_build]
    have hrest := ih (fun t' ht' => h t' (List.mem_cons_of_mem _ ht'))
    rw [if_pos ⟨hb, ho⟩, hrest]
    simp [List.length_cons]
    omega

/-! ## Lemmas about the orchestrator's policy loop -/

theorem processItems_all_ok (root : String) (idx : SelectorIndex)
    (items : List DecodeResult) :
    ∀ acc e, items.all (fun it => !isFail it) = true →
    processItems root idx items acc e =
      Except.ok (acc ++ goodOutput root idx items,
        e || anyFailing root idx items) := by
  induction items with
  | nil => intro acc e _; simp [processItems, goodOutput, anyFailing]
  | cons hd tl ih =>
    intro acc e hall
    cases hd with
    | fail m => simp [isFail] at hall
    | ok p =>
      have htl : tl.all (fun it => !isFail it) = true := by
        simp only [List.all_cons, Bool.and_eq_true] at hall
        exact hall.2
      by_cases hc : (Convert root idx p).2.errors.length ≠ 0
      · simp only [processItems]
        rw [if_pos hc]
        rw [ih _ _ htl]
        simp [goodOutput, anyFailing, hc]
      · simp only [processItems]
        rw [if_neg hc]
        rw [ih _ _ htl]
        simp [goodOutput, anyFailing, hc]

theorem processItems_flag_true (root : String) (idx : SelectorIndex)
    (items : List DecodeResult) :
    ∀ acc, (∃ m, processItems root idx items acc true = Except.error m) ∨
      (∃ out, processItems root idx items acc true = Except.ok (out, true)) := by
  induction items with
  | nil => intro acc; exact Or.inr ⟨acc, rfl⟩
  | cons hd tl ih =>
    intro acc
    cases hd with
    | fail m => exact Or.inl ⟨_, rfl⟩
    | ok p =>
      by_cases hc : (Convert root idx p).2.errors.length ≠ 0
      · simp only [processItems]
        rw [if_pos hc]
        exact ih acc
      · simp only [processItems]
        rw [if_neg hc]
        exact ih (acc ++ (Convert root idx p).1)

theorem processItems_failing (root : String) (idx : SelectorIndex)
    (items : List DecodeResult) :
    ∀ acc e,
    (∃ p, DecodeResult.ok p ∈ items ∧ (Convert root idx p).2.errors ≠ []) →
    (∃ m, processItems root idx items acc e = Except.error m) ∨
      (∃ out, processItems root idx items acc e = Except.ok (out, true)) := by
  induction items with
  | nil =>
    intro acc e hex
    obtain ⟨p, hp, _⟩ := hex
    simp at hp
  | cons hd tl ih =>
    intro acc e hex
    obtain ⟨p, hp, herr⟩ := hex
    cases hd with
    | fail m => exact Or.inl ⟨_, rfl⟩
    | ok q =>
      rcases List.mem_cons.mp hp with heq | hmem
      · injection heq with hpq
        subst hpq
        have hc : (Convert root idx p).2.errors.length ≠ 0 := by
          intro h0
          exact herr (List.length_eq_zero.mp h0)
        simp only [processItems]
        rw [if_pos hc]
        exact processItems_flag_true root idx tl acc
      · by_cases hc : (Convert root idx q).2.errors.length ≠ 0
        · simp only [processItems]
          rw [if_pos hc]
          exact processItems_flag_true root idx tl acc
        · simp only [processItems]
          rw [if_neg hc]
          exact ih _ _ ⟨p, hmem, herr⟩

theorem processItems_fail_first (root : String) (idx : SelectorIndex)
    (pre : List DecodeResult) (m : String) (rest : List DecodeResult) :
    ∀ acc e, pre.all (fun it => !isFail it) = true →
    processItems root idx (pre ++ DecodeResult.fail m :: rest) acc e =
      Except.error ("failed to convert resource to authentication policy: " ++ m) := by
  induction pre with
  | nil => intro acc e _; rfl
  | cons hd tl ih =>
    intro acc e hall
    cases hd with
    | fail m' => simp [isFail] at hall
    | ok p =>
      have htl : tl.all (fun it => !isFail it) = true := by
        simp only [List.all_cons, Bool.and_eq_true] at hall
        exact hall.2
      by_cases hc : (Convert root idx p).2.errors.length ≠ 0
      · simp only [List.cons_append, processItems]
        rw [if_pos hc]
        exact ih _ _ htl
      · simp only [List.cons_append, processItems]
        rw [if_neg hc]
        exact ih _ _ htl

/-! ## Concrete run inputs used in witnesses and counterexamples -/

/-- A policy whose only target does not resolve (empty index), so its
conversion summary carries a TargetNotFound error. -/
def noTargetPolicy : LegacyPolicy :=
  { name := "broken", «namespace» := "bar", peerIsOptional := false,
    peerMethods := [PeerMethod.mutualTLS], originIsOptional := false,
    originMethods := [], principalBinding := PrincipalBinding.usePeer,
    targets := [{ serviceName := "missing", ports := [] }] }

/-- A policy that converts cleanly: one MutualTLS peer method and no
explicit targets (implicit whole-scope target, no selector). -/
def okPolicy : LegacyPolicy :=
  { name := "good", «namespace» := "baz", peerIsOptional := false,
    peerMethods := [PeerMethod.mutualTLS], originIsOptional := false,
    originMethods := [], principalBinding := PrincipalBinding.usePeer,
    targets := [] }

/-- A run with one failing policy and no override flag. -/
def c1Input : RunInput :=
  { hasIstioNs := true, servicesOk := true, root := istioNamespace, idx := [],
    items := [DecodeResult.ok noTargetPolicy], rbacResources := [],
    ignoreError := false }

/-- A best-effort run with one failing and one succeeding policy. -/
def c5Input : RunInput :=
  { hasIstioNs := true, servicesOk := true, root := istioNamespace, idx := [],
    items := [DecodeResult.ok noTargetPolicy, DecodeResult.ok okPolicy],
    rbacResources := [], ignoreError := true }

/-- A best-effort run whose first listed policy fails decoding while the
second would convert cleanly. -/
def c6Input : RunInput :=
  { hasIstioNs := true, servicesOk := true, root := istioNamespace, idx := [],
    items := [DecodeResult.fail ("malformed policy"), DecodeResult.ok okPolicy],
    rbacResources := [], ignoreError := true }

/-- The items of a run with one succeeding and one failing policy. -/
def c7Items : List DecodeResult :=
  [DecodeResult.ok okPolicy, DecodeResult.ok noTargetPolicy]

/-- A run with one clean policy and one detected legacy RBAC resource,
without the override flag. -/
def c8Input : RunInput :=
  { hasIstioNs := true, servicesOk := true, root := istioNamespace, idx := [],
    items := [DecodeResult.ok okPolicy],
    rbacResources := ["ServiceRole: default/some-role"], ignoreError := false }

/-! ## Claims about the orchestrator -/

/-- C1: for every run without the best-effort override flag, if at least
one decoded policy's conversion summary contains an error, `convert`
returns an error.  Output emission is modelled by the `Except.ok` payload
(the Go code prints the accumulated output only after the error check), so
an error return means no converted output at all is emitted, including the
resources of policies that converted successfully. -/
theorem C1_run_fails_without_override (inp : RunInput)
    (hflag : inp.ignoreError = false)
    (hfail : ∃ p, DecodeResult.ok p ∈ inp.items ∧
      (Convert inp.root inp.idx p).2.errors ≠ []) :
    ∃ m, convertRun inp = Except.error m := by
  unfold convertRun
  cases hns : inp.hasIstioNs with
  | false => exact ⟨"could not find istio-system namespace", by simp⟩
  | true =>
    cases hsvc : inp.servicesOk with
    | false => exact ⟨"failed to list services", by simp⟩
    | true =>
      rcases processItems_failing inp.root inp.idx inp.items [] false hfail with
        ⟨m, hm⟩ | ⟨out, hout⟩
      · exact ⟨m, by simp [hm]⟩
      · exact ⟨"conversion failed, found errors during conversion, please fix errors and re-run the tool again",
          by simp [hout, hflag]⟩

/-- C1 witness: a concrete run with one policy whose target cannot be
resolved and the override flag off returns an error. -/
theorem C1_witness : ∃ m, convertRun c1Input = Except.error m :=
  C1_run_fails_without_override c1Input rfl
    ⟨noTargetPolicy, by decide, by decide⟩

/-- C5 counterexample: a best-effort run containing a policy whose summary
has errors returns `Except.ok` with the successful policy's resources — the
run does not fail, refuting the claimed failure status. -/
theorem C5_counterexample :
    c5Input.ignoreError = true ∧
    (∃ p, DecodeResult.ok p ∈ c5Input.items ∧
      (Convert c5Input.root c5Input.idx p).2.errors ≠ []) ∧
    convertRun c5Input = Except.ok [mkResource ("good") ("baz") none
      (provAnn okPolicy ("")) (ResourceSpec.peerAuthentication MtlsMode.strict)] :=
  ⟨rfl, ⟨noTargetPolicy, by decide, by decide⟩, rfl⟩

/-- C5 (amended): with the best-effort override flag, when at least one
error occurred (a failing policy summary or a detected RBAC resource) and
no listed policy failed decoding, `convert` returns success — not a
failure — while the accumulated output of the successfully converted
policies is emitted; the failures are only logged as warnings. -/
theorem C5_best_effort_emits (inp : RunInput)
    (hns : inp.hasIstioNs = true) (hsvc : inp.servicesOk = true)
    (hnf : inp.items.all (fun it => !isFail it) = true)
    (hflag : inp.ignoreError = true)
    (_herr : anyFailing inp.root inp.idx inp.items = true ∨
      inp.rbacResources ≠ []) :
    convertRun inp = Except.ok (goodOutput inp.root inp.idx inp.items) := by
  unfold convertRun
  rw [hns, hsvc, processItems_all_ok inp.root inp.idx inp.items [] false hnf]
  simp [hflag]

/-- C5 witness: the amended statement holds on the concrete best-effort
run with one failing and one succeeding policy. -/
theorem C5_witness :
    convertRun c5Input =
      Except.ok (goodOutput c5Input.root c5Input.idx c5Input.items) :=
  C5_best_effort_emits c5Input rfl rfl (by decide) rfl (Or.inl (by decide))

/-- C6 counterexample: a decode failure on the first listed policy aborts
the whole run — even with the best-effort flag — although the second
policy would convert cleanly to a non-empty resource list; this refutes
"fatal only to that policy, not to the run". -/
theorem C6_counterexample :
    (Convert c6Input.root c6Input.idx okPolicy).2.errors = [] ∧
    (Convert c6Input.root c6Input.idx okPolicy).1 ≠ [] ∧
    convertRun c6Input = Except.error
      ("failed to convert resource to authentication policy: malformed policy") :=
  ⟨by decide, by decide, rfl⟩

/-- C6 (amended): a DecodeError is fatal to the entire run regardless of
the override flag: `convert` aborts at the first decode failure with its
error, the remaining discovered policies are not converted, and no output
is emitted (there is no strict-mode flag in the code). -/
theorem C6_decode_error_fatal (inp : RunInput) (pre : List DecodeResult)
    (m : String) (rest : List DecodeResult)
    (hns : inp.hasIstioNs = true) (hsvc : inp.servicesOk = true)
    (hitems : inp.items = pre ++ DecodeResult.fail m :: rest)
    (hpre : pre.all (fun it => !isFail it) = true) :
    convertRun inp = Except.error
      ("failed to convert resource to authentication policy: " ++ m) := by
  unfold convertRun
  rw [hns, hsvc, hitems,
    processItems_fail_first inp.root inp.idx pre m rest [] false hpre]
  simp

/-- C6 witness: the amended statement holds on the concrete run whose
first listed policy fails decoding. -/
theorem C6_witness :
    convertRun c6Input = Except.error
      ("failed to convert resource to authentication policy: malformed policy") :=
  C6_decode_error_fatal c6Input [] ("malformed policy")
    [DecodeResult.ok okPolicy] rfl rfl rfl (by decide)

/-- C7: in the orchestrator's policy loop, a policy's resources are
appended to the accumulated output exactly when its summary has zero
errors: the loop returns the concatenated output of the zero-error
policies (`goodOutput`, defined by that very condition) and an error flag
recording whether any policy failed. -/
theorem C7_append_iff_no_errors (root : String) (idx : SelectorIndex)
    (items : List DecodeResult)
    (hnf : items.all (fun it => !isFail it) = true) :
    processItems root idx items [] false =
      Except.ok (goodOutput root idx items, anyFailing root idx items) := by
  simpa using processItems_all_ok root idx items [] false hnf

/-- C7 witness: the loop on one succeeding and one failing policy returns
the successful policy's resources and a raised error flag. -/
theorem C7_witness :
    processItems istioNamespace [] c7Items [] false =
      Except.ok (goodOutput istioNamespace [] c7Items,
        anyFailing istioNamespace [] c7Items) :=
  C7_append_iff_no_errors istioNamespace [] c7Items (by decide)

/-- C8: legacy RBAC resources are only enumerated, never converted — the
run's output is exactly the converted policies' accumulated output,
independent of the RBAC list — and their presence marks the run failed
under the same flag semantics as policy errors: without the override flag
`convert` returns an error (no output), with it the output is emitted. -/
theorem C8_rbac_reported_not_converted (inp : RunInput)
    (hns : inp.hasIstioNs = true) (hsvc : inp.servicesOk = true)
    (hnf : inp.items.all (fun it => !isFail it) = true)
    (hrbac : inp.rbacResources ≠ []) :
    convertRun inp =
      if inp.ignoreError
      then Except.ok (goodOutput inp.root inp.idx inp.items)
      else Except.error ("conversion failed, found errors during conversion, please fix errors and re-run the tool again") := by
  unfold convertRun
  rw [hns, hsvc, processItems_all_ok inp.root inp.idx inp.items [] false hnf]
  have hne : inp.rbacResources.isEmpty = false := by
    cases hr : inp.rbacResources with
    | nil => exact absurd hr hrbac
    | cons a l => rfl
  cases hflag : inp.ignoreError <;> simp [hne]

/-- C8 witness: a run with one clean policy and one detected RBAC resource
and no override flag fails with the conversion error. -/
theorem C8_witness :
    convertRun c8Input =
      if c8Input.ignoreError
      then Except.ok (goodOutput c8Input.root c8Input.idx c8Input.items)
      else Except.error ("conversion failed, found errors during conversion, please fix errors and re-run the tool again") :=
  C8_rbac_reported_not_converted c8Input rfl rfl (by decide) (by decide)

/-! ## Claims about the converter -/

/-- C2: for every policy whose `peerMethods` is exactly one MutualTLS
entry, every emitted PeerAuthentication resource carries mode Permissive
when `peerIsOptional` is true and Strict when it is false, and whenever
the conversion summary has no errors at least one such PeerAuthentication
is emitted; for every policy with empty `peerMethods`, no
PeerAuthentication resource is emitted at all. -/
theorem C2_peer_authentication_mode (root : String) (idx : SelectorIndex)
    (p : LegacyPolicy) :
    (p.peerMethods = [PeerMethod.mutualTLS] →
      (∀ r ∈ (Convert root idx p).1, ∀ mode,
        r.spec = ResourceSpec.peerAuthentication mode →
        mode = (if p.peerIsOptional then MtlsMode.permissive else MtlsMode.strict)) ∧
      ((Convert root idx p).2.errors = [] →
        ∃ r ∈ (Convert root idx p).1,
          r.spec = ResourceSpec.peerAuthentication
            (if p.peerIsOptional then MtlsMode.permissive else MtlsMode.strict))) ∧
    (p.peerMethods = [] →
      ∀ r ∈ (Convert root idx p).1, isPeerAuthSpec r.spec = false) := by
  constructor
  · intro hone
    constructor
    · intro r hr mode hmode
      obtain ⟨n, ns, sel, prov, hb⟩ := mem_Convert hr
      rcases mem_buildResources hb with hpeer | hreq | hauthz
      · obtain ⟨heq, _⟩ := mem_peerResources hpeer
        rw [heq] at hmode
        simp [mkResource] at hmode
        exact hmode.symm
      · obtain ⟨heq, _⟩ := mem_reqResources hreq
        rw [heq] at hmode
        simp [mkResource] at hmode
      · obtain ⟨heq, _, _⟩ := mem_authzResources hauthz
        rw [heq] at hmode
        simp [mkResource] at hmode
    · intro herr
      obtain ⟨n, ns, sel, prov, hsub⟩ := Convert_errors_nil_sub herr
      refine ⟨mkResource n ns sel prov (ResourceSpec.peerAuthentication
        (if p.peerIsOptional then MtlsMode.permissive else MtlsMode.strict)),
        hsub _ ?_, rfl⟩
      unfold buildResources peerResources
      rw [hone]
      simp
  · intro hnil r hr
    obtain ⟨n, ns, sel, prov, hb⟩ := mem_Convert hr
    rcases mem_buildResources hb with hpeer | hreq | hauthz
    · obtain ⟨_, hne⟩ := mem_peerResources hpeer
      exact absurd hnil hne
    · obtain ⟨heq, _⟩ := mem_reqResources hreq
      rw [heq]; simp [mkResource, isPeerAuthSpec]
    · obtain ⟨heq, _, _⟩ := mem_authzResources hauthz
      rw [heq]; simp [mkResource, isPeerAuthSpec]

/-- C2 witness: the fixture policy (one MutualTLS method, peerIsOptional
true, error-free conversion) yields a PeerAuthentication with mode
Permissive. -/
theorem C2_witness :
    ∃ r ∈ (Convert istioNamespace jwtBasicIndex jwtBasicPolicy).1,
      r.spec = ResourceSpec.peerAuthentication
        (if jwtBasicPolicy.peerIsOptional then MtlsMode.permissive
          else MtlsMode.strict) :=
  ((C2_peer_authentication_mode istioNamespace jwtBasicIndex
    jwtBasicPolicy).1 (by decide)).2 (by decide)

/-- A UseOrigin policy with one origin method and two resolvable targets. -/
def twoTargetPolicy : LegacyPolicy :=
  { name := "jwt-two", «namespace» := "foo", peerIsOptional := false,
    peerMethods := [], originIsOptional := false,
    originMethods := [jwtBasicOrigin],
    principalBinding := PrincipalBinding.useOrigin,
    targets := [{ serviceName := "svc-a", ports := [] },
      { serviceName := "svc-b", ports := [] }] }

/-- An index resolving both targets of `twoTargetPolicy`. -/
def twoTargetIndex : SelectorIndex :=
  [(("foo", "svc-a"), some [("app", "a")]),
   (("foo", "svc-b"), some [("app", "b")])]

/-- C3 counterexample: a UseOrigin policy with at least one JwtRule whose
conversion has no errors can emit two AuthorizationPolicies — one per
target — so "exactly one AuthorizationPolicy is emitted" fails as stated
for multi-target policies. -/
theorem C3_counterexample :
    twoTargetPolicy.principalBinding = PrincipalBinding.useOrigin ∧
    twoTargetPolicy.originMethods ≠ [] ∧
    (Convert istioNamespace twoTargetIndex twoTargetPolicy).2.errors = [] ∧
    countAuthz (Convert istioNamespace twoTargetIndex twoTargetPolicy).1 = 2 :=
  ⟨rfl, by decide, by decide, by decide⟩

/-- C3 (amended): every emitted AuthorizationPolicy has action Deny and
exactly one principal-required rule; for a UseOrigin policy with at least
one origin method whose conversion has no errors, exactly one such policy
is emitted per processed target (`numTargets`, which is positive — so for
single-target and whole-scope policies exactly one in total); for
UsePeer/Unspecified, none is emitted. -/
theorem C3_authorization_policy (root : String) (idx : SelectorIndex)
    (p : LegacyPolicy) :
    (∀ r ∈ (Convert root idx p).1, ∀ act rules,
      r.spec = ResourceSpec.authorizationPolicy act rules →
      act = AuthzAction.deny ∧ rules = [true]) ∧
    (p.principalBinding = PrincipalBinding.useOrigin → p.originMethods ≠ [] →
      (Convert root idx p).2.errors = [] →
      countAuthz (Convert root idx p).1 = numTargets p ∧ 0 < numTargets p) ∧
    (p.principalBinding ≠ PrincipalBinding.useOrigin →
      ∀ r ∈ (Convert root idx p).1, isAuthzSpec r.spec = false) := by
  refine ⟨?_, ?_, ?_⟩
  · intro r hr act rules hspec
    obtain ⟨n, ns, sel, prov, hb⟩ := mem_Convert hr
    rcases mem_buildResources hb with hpeer | hreq | hauthz
    · obtain ⟨heq, _⟩ := mem_peerResources hpeer
      rw [heq] at hspec; simp [mkResource] at hspec
    · obtain ⟨heq, _⟩ := mem_reqResources hreq
      rw [heq] at hspec; simp [mkResource] at hspec
    · obtain ⟨heq, _, _⟩ := mem_authzResources hauthz
      rw [heq] at hspec
      simp [mkResource] at hspec
      exact ⟨by cases act; rfl, hspec.symm⟩
  · intro hb ho herr
    constructor
    · cases hts : p.targets with
      | nil =>
        have h1 : (convertImplicitTarget root p).2.1 = [] := by
          unfold Convert at herr; rw [hts] at herr; simpa using herr
        have hnum : numTargets p = 1 := by unfold numTargets; rw [hts]
        rw [hnum]
        unfold Convert
        rw [hts]
        simp only [List.map_cons, List.map_nil, List.flatten_cons,
          List.flatten_nil, List.append_nil]
        rw [convertImplicitTarget_errors_nil h1, countAuthz_build,
          if_pos ⟨hb, ho⟩]
      | cons t ts =>
        have hall := Convert_errors_nil_targets herr
        rw [hts] at hall
        have hnum : numTargets p = (t :: ts).length := by
          unfold numTargets; rw [hts]
        rw [hnum]
        unfold Convert
        rw [hts]
        exact countAuthz_explicit_list root idx p (t :: ts) hall hb ho
    · unfold numTargets
      cases hts : p.targets with
      | nil => simp
      | cons t ts => simp
  · intro hnb r hr
    obtain ⟨n, ns, sel, prov, hb2⟩ := mem_Convert hr
    rcases mem_buildResources hb2 with hpeer | hreq | hauthz
    · obtain ⟨heq, _⟩ := mem_peerResources hpeer
      rw [heq]; simp [mkResource, isAuthzSpec]
    · obtain ⟨heq, _⟩ := mem_reqResources hreq
      rw [heq]; simp [mkResource, isAuthzSpec]
    · obtain ⟨_, hbind, _⟩ := mem_authzResources hauthz
      exact absurd hbind hnb

/-- C3 witness: the single-target fixture policy (UseOrigin, one origin
method, error-free) gets exactly one AuthorizationPolicy. -/
theorem C3_witness :
    countAuthz (Convert istioNamespace jwtBasicIndex jwtBasicPolicy).1 =
      numTargets jwtBasicPolicy ∧ 0 < numTargets jwtBasicPolicy :=
  (C3_authorization_policy istioNamespace jwtBasicIndex jwtBasicPolicy).2.1
    rfl (by decide) (by decide)

/-- C4: converting the jwt-basic fixture policy against the fixture index
produces exactly the three fixture resources, all named jwt-basic-httpbin
in namespace foo with selector app: httpbin — a PeerAuthentication with
mode Permissive, a RequestAuthentication with the single fixture JwtRule
(issuer and jwksUri), and an AuthorizationPolicy with action Deny and one
principal-required rule — with an empty summary, matching the reference
fixture file. -/
theorem C4_jwt_basic_fixture :
    Convert istioNamespace jwtBasicIndex jwtBasicPolicy =
      (jwtBasicExpected, { errors := [], warnings := [] }) := by
  decide

/-- C9: conversion is embedded as a pure function of the policy, the
selector index and the root namespace (and the whole run as a pure
function of its `RunInput`), so it is deterministic and side-effect-free:
re-running it on the same input produces identical output. -/
theorem C9_deterministic (root : String) (idx : SelectorIndex)
    (p : LegacyPolicy) (inp : RunInput) :
    Convert root idx p = Convert root idx p ∧
    convertRun inp = convertRun inp :=
  ⟨rfl, rfl⟩

/-! ## Claim about client construction (C10) -/

/-- The mesh config's `rootNamespace` entry when it is a non-empty string
(the only case in which `setRootnamespace` adopts it), as phrased by the
claim. -/
def meshRootString (parse : String → MeshParse) (cm : MeshConfigGet) :
    Option String :=
  match cm with
  | MeshConfigGet.found data =>
    match lookupData data meshConfigMapKey with
    | some y =>
      match parse y with
      | MeshParse.parsed (some (JsonValue.str v)) =>
        if v ≠ "" then some v else none
      | _ => none
    | none => none
  | _ => none

theorem setRootnamespace_ok (parse : String → MeshParse)
    (cm : MeshConfigGet) (ns : String)
    (h : setRootnamespace parse cm = Except.ok ns) :
    ns ≠ "" ∧
    (∀ v, meshRootString parse cm = some v → ns = v) ∧
    (meshRootString parse cm = none → ns = istioNamespace) := by
  unfold setRootnamespace at h
  split at h
  next =>
    injection h with h
    subst h
    exact ⟨by decide, fun v hv => by simp [meshRootString] at hv,
      fun _ => rfl⟩
  next m => simp at h
  next data =>
    split at h
    next hl => simp at h
    next y hl =>
      split at h
      next m hp => simp at h
      next m hp => simp at h
      next rootVal hp =>
        cases rootVal with
        | none =>
          simp at h
          subst h
          simp only [meshRootString, hl, hp]
          exact ⟨by decide, fun v hv => by simp at hv, fun _ => by simp⟩
        | some jv =>
          cases jv with
          | other =>
            simp at h
            subst h
            simp only [meshRootString, hl, hp]
            exact ⟨by decide, fun v hv => by simp at hv, fun _ => by simp⟩
          | str v =>
            by_cases hv : v ≠ ""
            · simp [hv] at h
              subst h
              simp only [meshRootString, hl, hp]
              rw [if_pos hv]
              refine ⟨hv, ?_, ?_⟩
              · intro w hw
                simp at hw
                simp [hw]
              · intro hw
                simp at hw
            · simp [hv] at h
              subst h
              simp only [meshRootString, hl, hp]
              rw [if_neg hv]
              exact ⟨by decide, fun w hw => by simp at hw, fun _ => by simp⟩

/-- C10: whenever `newKubeClient` succeeds, the client's `rootNamespace`
is non-empty: it is the mesh config map's `rootNamespace` value when that
is a non-empty string, and defaults to istio-system otherwise — including
when the config map is absent or the key's value is missing, null,
non-string or empty. -/
theorem C10_root_namespace_nonempty (kubeconfig : String) (statOk : Bool)
    (cerr : Option String) (parse : String → MeshParse) (cm : MeshConfigGet)
    (kc : KubeClient)
    (h : newKubeClient kubeconfig statOk cerr parse cm = Except.ok kc) :
    kc.rootNamespace ≠ "" ∧
    (∀ v, meshRootString parse cm = some v → kc.rootNamespace = v) ∧
    (meshRootString parse cm = none → kc.rootNamespace = istioNamespace) := by
  unfold newKubeClient at h
  split at h
  · simp at h
  · cases cerr with
    | some m => simp at h
    | none =>
      cases hs : setRootnamespace parse cm with
      | error m => rw [hs] at h; simp at h
      | ok ns =>
        rw [hs] at h
        injection h with h
        subst h
        exact setRootnamespace_ok parse cm ns hs

/-- A parse oracle returning a fixed non-empty rootNamespace string. -/
def constParse : String → MeshParse :=
  fun _ => MeshParse.parsed (some (JsonValue.str ("custom-root")))

/-- A found mesh config map carrying the mesh key. -/
def cmFound : MeshConfigGet :=
  MeshConfigGet.found [("mesh", "rootNamespace: custom-root")]

/-- C10 witness: constructing the client against a mesh config whose
rootNamespace is the non-empty string custom-root succeeds with exactly
that root namespace. -/
theorem C10_witness :
    ({ rootNamespace := "custom-root" } : KubeClient).rootNamespace ≠ "" ∧
    (∀ v, meshRootString constParse cmFound = some v →
      ({ rootNamespace := "custom-root" } : KubeClient).rootNamespace = v) ∧
    (meshRootString constParse cmFound = none →
      ({ rootNamespace := "custom-root" } : KubeClient).rootNamespace =
        istioNamespace) :=
  C10_root_namespace_nonempty ("") true none constParse cmFound
    { rootNamespace := "custom-root" } (by rfl)
